import Mathlib

/-!
Verification of the state-evolution engine of the pizza-kiosk inventory
application: the schema migrator, the data sanitizer, the ledger mutators
and the import/export codec, embedded shallowly from `src/App.tsx` and
`src/components/DataManager.tsx`.

JavaScript runtime values occurring in persisted documents are modelled by
the inductive `JVal` (JSON-style values; numbers are modelled as rationals).
The typed ledger operations act on the canonical `AppData` record.
-/

/-- A JSON-style runtime value, as held in the persisted document. -/
inductive JVal : Type where
  | jnull : JVal
  | jbool : Bool → JVal
  | jnum  : Rat → JVal
  | jstr  : String → JVal
  | jarr  : List JVal → JVal
  | jobj  : List (String × JVal) → JVal

/-- JavaScript truthiness of a value (`Boolean(v)`). -/
def truthy : JVal → Bool
  | .jnull => false
  | .jbool b => b
  | .jnum n => n != 0
  | .jstr s => s != ""
  | .jarr _ => true
  | .jobj _ => true

/-- Property access `v[k]`: `none` models JavaScript `undefined`. -/
def getField : JVal → String → Option JVal
  | .jobj fs, k => (fs.find? (fun p => p.1 == k)).map (fun p => p.2)
  | _, _ => none

/-- `item && typeof item === 'object'` — the well-formed-object test used by
both the sanitizer and the migrator in `App.tsx`.  `null` has `typeof`
`'object'` but is falsy; arrays are truthy objects and therefore pass. -/
def isValidObject : JVal → Bool
  | .jarr _ => true
  | .jobj _ => true
  | _ => false

/-- `!item.id` in the migration effect: does the entry have a truthy `id`? -/
def hasTruthyId (v : JVal) : Bool :=
  match getField v "id" with
  | some x => truthy x
  | none => false

/-- Setting key `k` to `x` in an object literal: an existing first occurrence
is overwritten in place (JavaScript property-order semantics), otherwise the
pair is appended. -/
def setField : List (String × JVal) → String → JVal → List (String × JVal)
  | [], k, x => [(k, x)]
  | (k1, v1) :: fs, k, x =>
    if k1 = k then (k, x) :: fs else (k1, v1) :: setField fs k x

/-- The own enumerable properties produced by spreading a value into an
object literal (`{...item}`): an object's fields, or an array's entries
keyed by their decimal indices. -/
def objFields : JVal → List (String × JVal)
  | .jobj fs => fs
  | .jarr xs => (xs.enum).map (fun p => (Nat.repr p.1, p.2))
  | _ => []

/-- The value stored under `id` by `{...item, id: item.id || newId}`. -/
def ensuredIdVal (v : JVal) (newId : String) : JVal :=
  match getField v "id" with
  | some x => if truthy x then x else .jstr newId
  | none => .jstr newId

/-- `{...item, id: item.id || newId}` — the per-entry id-migration step. -/
def withEnsuredId (v : JVal) (newId : String) : JVal :=
  .jobj (setField (objFields v) "id" (ensuredIdVal v newId))

/-- The id generated for an id-less entry during migration:
``migrated-<marker>-<Date.now()>-<index>``. -/
def genId (marker : String) (now idx : Nat) : String :=
  "migrated-" ++ marker ++ "-" ++ Nat.repr now ++ "-" ++ Nat.repr idx

/-- Step 1 of the migration effect, per field: a non-array is replaced by
`[]`; an array is filtered to well-formed objects, flagged as changed only
when the filter actually dropped an entry. -/
def sanitizeField (v : JVal) : List JVal × Bool :=
  match v with
  | .jarr xs =>
    let ys := xs.filter isValidObject
    if ys.length < xs.length then (ys, true) else (xs, false)
  | _ => ([], true)

/-- Steps 2/3 of the migration effect: when some entry lacks a truthy `id`,
every entry is rebuilt with `{...item, id: item.id || genId marker now idx}`;
otherwise the list is returned untouched with no change flagged. -/
def migrateIds (marker : String) (now : Nat) (xs : List JVal) : List JVal × Bool :=
  if xs.any (fun v => ! hasTruthyId v) then
    ((xs.enum).map (fun p => withEnsuredId p.2 (genId marker now p.1)), true)
  else (xs, false)

/-- The persisted root document as the migration effect receives it: the
five top-level fields of `AppData`, each holding an arbitrary runtime
value (legacy or corrupted documents included). -/
structure RawDoc where
  inventory : JVal
  purchases : JVal
  sales : JVal
  rent : JVal
  otherExpenses : JVal

theorem RawDoc.ext_iff {a b : RawDoc} :
    a = b ↔ a.inventory = b.inventory ∧ a.purchases = b.purchases ∧
      a.sales = b.sales ∧ a.rent = b.rent ∧ a.otherExpenses = b.otherExpenses := by
  constructor
  · intro h; subst h; exact ⟨rfl, rfl, rfl, rfl, rfl⟩
  · rintro ⟨h1, h2, h3, h4, h5⟩; cases a; cases b; simp_all

/-- The data-migration `useEffect` of `App.tsx` as a pure function:
sanitize the four collection fields, then assign migration ids to
id-less inventory items and sales.  Returns the next stored document and
the `needsUpdate` flag; when nothing changed the original document is
returned unchanged. -/
def migrate (d : RawDoc) (now : Nat) : RawDoc × Bool :=
  let inv1 := sanitizeField d.inventory
  let pur1 := sanitizeField d.purchases
  let sal1 := sanitizeField d.sales
  let oth1 := sanitizeField d.otherExpenses
  let inv2 := migrateIds "inv" now inv1.1
  let sal2 := migrateIds "sale" now sal1.1
  let changed := inv1.2 || pur1.2 || sal1.2 || oth1.2 || inv2.2 || sal2.2
  (if changed then
    { inventory := .jarr inv2.1
      purchases := .jarr pur1.1
      sales := .jarr sal2.1
      rent := d.rent
      otherExpenses := .jarr oth1.1 }
   else d, changed)

/-- The entries of a field known to hold an array. -/
def entriesOf : JVal → List JVal
  | .jarr xs => xs
  | _ => []

/-- The `id` values of a list of entries. -/
def idsOf (xs : List JVal) : List (Option JVal) :=
  xs.map (fun v => getField v "id")

/-- The value of one collection field in the `sanitizedAppData` view:
coerce to `[]` when not an array, then keep only well-formed objects. -/
def viewField (v : JVal) : List JVal :=
  match v with
  | .jarr xs => xs.filter isValidObject
  | _ => []

/-- The sanitized view of the document (`sanitizedAppData` in `App.tsx`),
recomputed on every render; a pure projection with no persistence write. -/
structure SanView where
  rent : JVal
  inventory : List JVal
  purchases : List JVal
  sales : List JVal
  otherExpenses : List JVal

/-- `sanitizedAppData` from `App.tsx`: `rent := appData.rent || 0`, and each
collection coerced to an array and filtered to well-formed objects. -/
def sanitizedAppData (d : RawDoc) : SanView :=
  { rent := if truthy d.rent then d.rent else .jnum 0
    inventory := viewField d.inventory
    purchases := viewField d.purchases
    sales := viewField d.sales
    otherExpenses := viewField d.otherExpenses }

/-! ## The typed canonical model and the ledger mutators -/

/-- A canonical inventory item (`types.ts` / `InventoryItem`). -/
structure InventoryItem where
  id : String
  item : String
  quantity : Rat
  costPerUnit : Rat
  date : String
deriving DecidableEq, Repr

/-- A purchase event; `date = ""` models an absent (falsy) date string. -/
structure Purchase where
  item : String
  quantity : Rat
  cost : Rat
  date : String
deriving DecidableEq, Repr

/-- A sale record. -/
structure Sale where
  id : String
  revenue : Rat
  date : String
deriving DecidableEq, Repr

/-- A flat expense. -/
structure Expense where
  name : String
  amount : Rat
deriving DecidableEq, Repr

/-- The canonical root aggregate. -/
structure AppData where
  inventory : List InventoryItem
  purchases : List Purchase
  sales : List Sale
  rent : Rat
  otherExpenses : List Expense
deriving DecidableEq, Repr

/-- `handleAddPurchase` from `App.tsx`.  `nowIso` stands for
`new Date().toISOString()` and `freshId` for the generated
`inv-<Date.now()>-<random>` id, both impure inputs passed explicitly. -/
def handleAddPurchase (purchase : Purchase) (nowIso freshId : String)
    (prevData : AppData) : AppData :=
  let purchaseWithDate : Purchase :=
    { purchase with date := if purchase.date = "" then nowIso else purchase.date }
  let newInventoryItem : InventoryItem :=
    { id := freshId
      item := purchase.item
      quantity := purchase.quantity
      costPerUnit :=
        if purchase.cost > 0 ∧ purchase.quantity > 0 then
          purchase.cost / purchase.quantity
        else 0
      date := purchaseWithDate.date }
  { prevData with
      purchases := prevData.purchases ++ [purchaseWithDate]
      inventory := prevData.inventory ++ [newInventoryItem] }

/-- `handleAddInventory` from `App.tsx`.  The returned flag records whether
the duplicate-name `alert` fired (in which case the state is returned
unchanged). -/
def handleAddInventory (item : InventoryItem) (freshId : String)
    (prevData : AppData) : AppData × Bool :=
  match prevData.inventory.find? (fun inv => inv.item.toLower == item.item.toLower) with
  | some _ => (prevData, true)
  | none =>
    ({ prevData with inventory := prevData.inventory ++ [{ item with id := freshId }] },
     false)

/-- `handleUpdateSale` from `App.tsx`: map over the sales, replacing every
entry whose `id` equals the updated sale's. -/
def handleUpdateSale (updatedSale : Sale) (prevData : AppData) : AppData :=
  { prevData with
      sales := prevData.sales.map
        (fun sale => if sale.id = updatedSale.id then updatedSale else sale) }

/-- `handleDeleteSale` from `App.tsx`: keep every sale whose `id` differs. -/
def handleDeleteSale (saleId : String) (prevData : AppData) : AppData :=
  { prevData with
      sales := prevData.sales.filter (fun sale => sale.id ≠ saleId) }

/-! ## The import/export codec (`DataManager.tsx`)

`JSON.stringify` / `JSON.parse` form the platform serialization layer; the
codec is modelled at the JSON-value level, where their composition is the
identity.  `exportDocument` is the JSON document `handleExportData`
serializes; `importDocument` is the pure content of `handleFileChange`,
taking the parse result (`none` models an unreadable file or a
`JSON.parse` failure) and the user's confirmation answer. -/

def invItemToJson (x : InventoryItem) : JVal :=
  .jobj [("id", .jstr x.id), ("item", .jstr x.item), ("quantity", .jnum x.quantity),
         ("costPerUnit", .jnum x.costPerUnit), ("date", .jstr x.date)]

def purchaseToJson (p : Purchase) : JVal :=
  .jobj [("item", .jstr p.item), ("quantity", .jnum p.quantity),
         ("cost", .jnum p.cost), ("date", .jstr p.date)]

def saleToJson (s : Sale) : JVal :=
  .jobj [("id", .jstr s.id), ("revenue", .jnum s.revenue), ("date", .jstr s.date)]

def expenseToJson (e : Expense) : JVal :=
  .jobj [("name", .jstr e.name), ("amount", .jnum e.amount)]

/-- The JSON document exported by `handleExportData`: a direct serialization
of the canonical `AppData` it receives (field order as in the
`sanitizedAppData` literal). -/
def exportDocument (d : AppData) : JVal :=
  .jobj [("rent", .jnum d.rent),
         ("inventory", .jarr (d.inventory.map invItemToJson)),
         ("purchases", .jarr (d.purchases.map purchaseToJson)),
         ("sales", .jarr (d.sales.map saleToJson)),
         ("otherExpenses", .jarr (d.otherExpenses.map expenseToJson))]

/-- `'k' in v` for a parsed JSON value (own-property test on objects). -/
def hasKey (v : JVal) (k : String) : Bool :=
  match v with
  | .jobj fs => fs.any (fun p => p.1 == k)
  | _ => false

/-- The single user-facing import failure of the spec's taxonomy: the file
did not parse as a document, or a required top-level key is missing. -/
inductive ImportError where
  | invalidDocumentShape : ImportError
deriving DecidableEq, Repr

/-- `handleFileChange` from `DataManager.tsx` as a pure state transition:
on parse failure or a missing `inventory`/`sales`/`purchases` key the
existing stored document is kept and the error is surfaced; otherwise the
parsed document replaces the state if and only if the user confirms. -/
def importDocument (parsed : Option JVal) (confirmed : Bool) (prevState : JVal) :
    JVal × Option ImportError :=
  match parsed with
  | none => (prevState, some .invalidDocumentShape)
  | some importedData =>
    if hasKey importedData "inventory" && hasKey importedData "sales"
        && hasKey importedData "purchases" then
      if confirmed then (importedData, none) else (prevState, none)
    else (prevState, some .invalidDocumentShape)

def jstrDec : JVal → Option String
  | .jstr s => some s
  | _ => none

def jnumDec : JVal → Option Rat
  | .jnum q => some q
  | _ => none

def invItemOfJson (v : JVal) : Option InventoryItem := do
  let i ← getField v "id" >>= jstrDec
  let it ← getField v "item" >>= jstrDec
  let q ← getField v "quantity" >>= jnumDec
  let c ← getField v "costPerUnit" >>= jnumDec
  let dt ← getField v "date" >>= jstrDec
  pure { id := i, item := it, quantity := q, costPerUnit := c, date := dt }

def purchaseOfJson (v : JVal) : Option Purchase := do
  let it ← getField v "item" >>= jstrDec
  let q ← getField v "quantity" >>= jnumDec
  let c ← getField v "cost" >>= jnumDec
  let dt ← getField v "date" >>= jstrDec
  pure { item := it, quantity := q, cost := c, date := dt }

def saleOfJson (v : JVal) : Option Sale := do
  let i ← getField v "id" >>= jstrDec
  let r ← getField v "revenue" >>= jnumDec
  let dt ← getField v "date" >>= jstrDec
  pure { id := i, revenue := r, date := dt }

def expenseOfJson (v : JVal) : Option Expense := do
  let n ← getField v "name" >>= jstrDec
  let a ← getField v "amount" >>= jnumDec
  pure { name := n, amount := a }

def jarrDec : JVal → Option (List JVal)
  | .jarr xs => some xs
  | _ => none

/-- List decoding for the typed read-back interpretation: all entries must
decode. -/
def decodeList {α : Type} (g : JVal → Option α) : List JVal → Option (List α)
  | [] => some []
  | v :: vs => do
    let a ← g v
    let as ← decodeList g vs
    pure (a :: as)

/-- Modelled from the spec: reading an imported document back into the
typed canonical model, as the application does when it treats the parsed
object as its new `AppData` (the typed interpretation of each field; used
to state that the export/import round trip is lossless). -/
def appDataOfJson (v : JVal) : Option AppData := do
  let r ← getField v "rent" >>= jnumDec
  let inv ← getField v "inventory" >>= jarrDec
  let pur ← getField v "purchases" >>= jarrDec
  let sal ← getField v "sales" >>= jarrDec
  let oth ← getField v "otherExpenses" >>= jarrDec
  let inv2 ← decodeList invItemOfJson inv
  let pur2 ← decodeList purchaseOfJson pur
  let sal2 ← decodeList saleOfJson sal
  let oth2 ← decodeList expenseOfJson oth
  pure { inventory := inv2, purchases := pur2, sales := sal2, rent := r,
         otherExpenses := oth2 }

theorem decodeList_map {α : Type} (f : α → JVal) (g : JVal → Option α)
    (h : ∀ x, g (f x) = some x) (l : List α) :
    decodeList g (l.map f) = some l := by
  induction l with
  | nil => rfl
  | cons x xs ih => simp [decodeList, h x, ih]

/-! ## C1 — purchase recording -/

/-- C1: `recordPurchase(p)` appends `p` to `purchases` (its date defaulted
to the current time when absent) and synthesizes exactly one new inventory
item — appended after the existing inventory, never merged — whose
`costPerUnit` is `cost/quantity` when both are positive and `0` otherwise,
and whose `quantity`, `item` and `date` are copied from the purchase. -/
theorem recordPurchase_spec (purchase : Purchase) (nowIso freshId : String)
    (prevData : AppData) :
    (handleAddPurchase purchase nowIso freshId prevData).purchases =
      prevData.purchases ++
        [{ purchase with
            date := if purchase.date = "" then nowIso else purchase.date }] ∧
    (handleAddPurchase purchase nowIso freshId prevData).inventory =
      prevData.inventory ++
        [{ id := freshId
           item := purchase.item
           quantity := purchase.quantity
           costPerUnit :=
             if purchase.cost > 0 ∧ purchase.quantity > 0 then
               purchase.cost / purchase.quantity
             else 0
           date := if purchase.date = "" then nowIso else purchase.date }] ∧
    (handleAddPurchase purchase nowIso freshId prevData).inventory.length =
      prevData.inventory.length + 1 ∧
    (handleAddPurchase purchase nowIso freshId prevData).sales = prevData.sales ∧
    (handleAddPurchase purchase nowIso freshId prevData).rent = prevData.rent ∧
    (handleAddPurchase purchase nowIso freshId prevData).otherExpenses =
      prevData.otherExpenses := by
  refine ⟨rfl, rfl, ?_, rfl, rfl, rfl⟩
  simp [handleAddPurchase]

/-! ## C5 — duplicate-name rejection in createInventoryItem -/

/-- C5: when the inventory already holds an item with the same name up to
case, `createInventoryItem` returns the state unchanged (same inventory,
same length) and signals the duplicate; otherwise it appends exactly the
new item carrying the fresh id. -/
theorem createInventoryItem_spec (item : InventoryItem) (freshId : String)
    (prevData : AppData) :
    if prevData.inventory.any (fun inv => inv.item.toLower == item.item.toLower) then
      handleAddInventory item freshId prevData = (prevData, true) ∧
      (handleAddInventory item freshId prevData).1.inventory.length =
        prevData.inventory.length
    else
      handleAddInventory item freshId prevData =
        ({ prevData with
            inventory := prevData.inventory ++ [{ item with id := freshId }] },
         false) ∧
      (handleAddInventory item freshId prevData).1.inventory.length =
        prevData.inventory.length + 1 ∧
      (handleAddInventory item freshId prevData).1.inventory.map InventoryItem.id =
        prevData.inventory.map InventoryItem.id ++ [freshId] := by
  cases h : prevData.inventory.find? (fun inv => inv.item.toLower == item.item.toLower) with
  | some x =>
    have hpx : (x.item.toLower == item.item.toLower) = true := by
      have := List.find?_some h
      simpa using this
    have hany : prevData.inventory.any
        (fun inv => inv.item.toLower == item.item.toLower) = true := by
      rw [List.any_eq_true]
      exact ⟨x, List.mem_of_find?_eq_some h, hpx⟩
    simp only [hany, if_true]
    exact ⟨by simp [handleAddInventory, h], by simp [handleAddInventory, h]⟩
  | none =>
    have hany : prevData.inventory.any
        (fun inv => inv.item.toLower == item.item.toLower) = false := by
      rw [List.any_eq_false]
      intro x hx
      have := List.find?_eq_none.mp h x hx
      simpa using this
    simp only [hany, Bool.false_eq_true, if_false]
    refine ⟨by simp [handleAddInventory, h], ?_, ?_⟩
    · simp [handleAddInventory, h]
    · simp [handleAddInventory, h]

/-! ## C7 — sanitizer safety -/

/-- The length/shape bound the sanitizer guarantees per field: at most the
original number of entries when the field was an array, the empty list
otherwise. -/
def lenBound (orig : JVal) (out : List JVal) : Prop :=
  match orig with
  | .jarr xs => out.length ≤ xs.length
  | _ => out = []

theorem viewField_all_valid (v : JVal) : (viewField v).all isValidObject = true := by
  cases v <;> simp [viewField]

theorem viewField_lenBound (v : JVal) : lenBound v (viewField v) := by
  cases v <;> simp only [viewField, lenBound] <;>
    first
      | rfl
      | exact List.length_filter_le _ _

/-- C7: on every input document — including ones whose collection fields
are `null`, primitives, or arrays containing `null`/primitive entries —
the `sanitizedAppData` view holds, for each of the four collection fields,
an array of well-formed objects only, of length at most the original
array's (empty when the field was not an array); the view is computed as a
pure projection of the document. -/
theorem sanitize_safe (d : RawDoc) :
    ((sanitizedAppData d).inventory.all isValidObject = true ∧
      lenBound d.inventory (sanitizedAppData d).inventory) ∧
    ((sanitizedAppData d).purchases.all isValidObject = true ∧
      lenBound d.purchases (sanitizedAppData d).purchases) ∧
    ((sanitizedAppData d).sales.all isValidObject = true ∧
      lenBound d.sales (sanitizedAppData d).sales) ∧
    ((sanitizedAppData d).otherExpenses.all isValidObject = true ∧
      lenBound d.otherExpenses (sanitizedAppData d).otherExpenses) :=
  ⟨⟨viewField_all_valid _, viewField_lenBound _⟩,
   ⟨viewField_all_valid _, viewField_lenBound _⟩,
   ⟨viewField_all_valid _, viewField_lenBound _⟩,
   ⟨viewField_all_valid _, viewField_lenBound _⟩⟩

/-! ## C10 — arrays pass the well-formed-object filter -/

/-- C10: the sanitizer's well-formed-object test accepts any array, so an
array entry (for example an empty one) sitting inside a collection is
retained by the sanitized view rather than dropped as malformed. -/
theorem sanitize_retains_array_entries (ys rest : List JVal)
    (pur sal rent oth : JVal) :
    isValidObject (.jarr ys) = true ∧
    (sanitizedAppData ⟨.jarr (.jarr ys :: rest), pur, sal, rent, oth⟩).inventory =
      .jarr ys :: rest.filter isValidObject := by
  exact ⟨rfl, by simp [sanitizedAppData, viewField, List.filter_cons, isValidObject]⟩

/-! ## C3 — legacy bare-number `otherExpenses` -/

/-- A legacy document whose `otherExpenses` field is the bare number `5`. -/
def legacyNumberDoc : RawDoc :=
  { inventory := .jarr []
    purchases := .jarr []
    sales := .jarr []
    rent := .jnum 0
    otherExpenses := .jnum 5 }

/-- C3 fails on the code: migrating a document whose `otherExpenses` is the
bare number `5 > 0` yields the empty list, not the claimed singleton
`[{name: "Legacy Other Expenses", amount: 5}]` — no such conversion exists
in the migration effect. -/
theorem migrate_bareNumber_counterexample :
    (migrate legacyNumberDoc 0).1.otherExpenses = .jarr [] ∧
    (migrate legacyNumberDoc 0).1.otherExpenses ≠
      .jarr [.jobj [("name", .jstr "Legacy Other Expenses"), ("amount", .jnum 5)]] := by
  refine ⟨rfl, ?_⟩
  intro h
  rw [show (migrate legacyNumberDoc 0).1.otherExpenses = .jarr [] from rfl] at h
  simp at h

/-- C3 (amended): for every raw document whose `otherExpenses` field is a
bare number `N`, migration replaces it with the empty list, whether or not
`N > 0` (the migration treats any non-array field as corrupted and resets
it to `[]`). -/
theorem migrate_bareNumber_otherExpenses (d : RawDoc) (now : Nat) (q : Rat)
    (h : d.otherExpenses = .jnum q) :
    (migrate d now).1.otherExpenses = .jarr [] := by
  simp [migrate, h, sanitizeField]

/-- Witness for C3 (amended) at a concrete legacy document. -/
theorem migrate_bareNumber_otherExpenses_witness :
    (migrate { inventory := .jarr [], purchases := .jarr [], sales := .jarr [],
               rent := .jnum 0, otherExpenses := .jnum 3 } 7).1.otherExpenses =
      .jarr [] :=
  migrate_bareNumber_otherExpenses _ 7 3 rfl

/-! ## C8 — import validation -/

/-- C8: an import whose file fails to parse, or whose parsed document lacks
any of the `inventory`, `sales`, `purchases` keys, signals the
invalid-document-shape error and leaves the stored document untouched. -/
theorem importDocument_rejects (parsed : Option JVal) (confirmed : Bool)
    (prevState : JVal)
    (h : parsed = none ∨ ∃ v, parsed = some v ∧
      (hasKey v "inventory" && hasKey v "sales" && hasKey v "purchases") = false) :
    (importDocument parsed confirmed prevState).1 = prevState ∧
    (importDocument parsed confirmed prevState).2 =
      some .invalidDocumentShape := by
  rcases h with h | ⟨v, hv, hk⟩
  · subst h; exact ⟨rfl, rfl⟩
  · subst hv
    simp [importDocument, hk]

/-- Witness for C8 at a parsed document missing every required key. -/
theorem importDocument_rejects_witness :
    (importDocument (some (.jobj [("rent", .jnum 3)])) true (.jstr "keep")).1 =
      .jstr "keep" ∧
    (importDocument (some (.jobj [("rent", .jnum 3)])) true (.jstr "keep")).2 =
      some .invalidDocumentShape :=
  importDocument_rejects _ true _ (Or.inr ⟨_, rfl, rfl⟩)

/-! ## C6 — update/delete sales by identity -/

theorem salesMap_update_eq_set (l : List Sale) (s : Sale) (i : Nat)
    (hi : i < l.length) (hN : (l.map Sale.id).Nodup)
    (hmatch : (l.get ⟨i, hi⟩).id = s.id) :
    l.map (fun sale => if sale.id = s.id then s else sale) = l.set i s := by
  apply List.ext_get
  · simp
  · intro j h1 h2
    rw [List.get_map]
    by_cases hji : j = i
    · subst hji
      rw [show l.get ⟨j, by simpa using h1⟩ = l.get ⟨j, hi⟩ from rfl, if_pos hmatch]
      have : j < (l.set j s).length := h2
      rw [List.get_eq_getElem, List.getElem_set, if_pos rfl]
    · have hlen : j < l.length := by simpa using h1
      have hne : (l.get ⟨j, hlen⟩).id ≠ s.id := by
        intro e
        apply hji
        have hinj := List.nodup_iff_injective_get.mp hN
        have hgj : (l.map Sale.id).get ⟨j, by simpa using hlen⟩ =
            (l.map Sale.id).get ⟨i, by simpa using hi⟩ := by
          rw [List.get_map, List.get_map]
          exact e.trans hmatch.symm
        have := hinj hgj
        exact congrArg Fin.val this
      rw [if_neg hne, List.get_eq_getElem, List.get_eq_getElem, List.getElem_set,
        if_neg (Ne.symm hji)]

theorem salesMap_noop (l : List Sale) (s : Sale) (h : s.id ∉ l.map Sale.id) :
    l.map (fun sale => if sale.id = s.id then s else sale) = l := by
  induction l with
  | nil => rfl
  | cons x xs ih =>
    simp only [List.map_cons, List.mem_cons, not_or] at h ⊢
    rcases h with ⟨h1, h2⟩
    rw [if_neg (fun e => h1 (e.symm)), ih h2]

theorem salesFilter_noop (l : List Sale) (deleteId : String)
    (h : deleteId ∉ l.map Sale.id) :
    l.filter (fun sale => sale.id ≠ deleteId) = l := by
  rw [List.filter_eq_self]
  intro a ha
  simp only [ne_eq, decide_not, Bool.not_eq_false']
  have : a.id ≠ deleteId := fun e => h (List.mem_map.mpr ⟨a, ha, e⟩)
  simpa using this

/-- C6: on a canonical state (unique sale ids), `updateSale(s)` with a
matching id replaces exactly the matching entry and no other; `updateSale`
with an unmatched id and `deleteSale` with an unmatched id both leave the
state — in particular the sales collection, its length and contents —
completely unchanged. -/
theorem updateDeleteSale_by_identity (prevData : AppData) (s s2 : Sale)
    (deleteId : String) (i : Nat) (hi : i < prevData.sales.length)
    (hN : (prevData.sales.map Sale.id).Nodup)
    (hmatch : (prevData.sales.get ⟨i, hi⟩).id = s.id)
    (hs2 : s2.id ∉ prevData.sales.map Sale.id)
    (hdel : deleteId ∉ prevData.sales.map Sale.id) :
    (handleUpdateSale s prevData).sales = prevData.sales.set i s ∧
    (handleUpdateSale s prevData).sales.length = prevData.sales.length ∧
    handleUpdateSale s2 prevData = prevData ∧
    handleDeleteSale deleteId prevData = prevData := by
  refine ⟨?_, ?_, ?_, ?_⟩
  · exact salesMap_update_eq_set _ _ _ hi hN hmatch
  · simp [handleUpdateSale]
  · show { prevData with sales := _ } = prevData
    rw [salesMap_noop _ _ hs2]
  · show { prevData with sales := _ } = prevData
    rw [salesFilter_noop _ _ hdel]

/-- Witness for C6 on a two-sale canonical state. -/
theorem updateDeleteSale_by_identity_witness :
    (handleUpdateSale ⟨"b", 9, "d3"⟩
        ⟨[], [], [⟨"a", 1, "d1"⟩, ⟨"b", 2, "d2"⟩], 0, []⟩).sales =
      [⟨"a", 1, "d1"⟩, ⟨"b", 9, "d3"⟩] ∧
    (handleUpdateSale ⟨"b", 9, "d3"⟩
        ⟨[], [], [⟨"a", 1, "d1"⟩, ⟨"b", 2, "d2"⟩], 0, []⟩).sales.length = 2 ∧
    handleUpdateSale ⟨"c", 0, ""⟩
        ⟨[], [], [⟨"a", 1, "d1"⟩, ⟨"b", 2, "d2"⟩], 0, []⟩ =
      ⟨[], [], [⟨"a", 1, "d1"⟩, ⟨"b", 2, "d2"⟩], 0, []⟩ ∧
    handleDeleteSale "z" ⟨[], [], [⟨"a", 1, "d1"⟩, ⟨"b", 2, "d2"⟩], 0, []⟩ =
      ⟨[], [], [⟨"a", 1, "d1"⟩, ⟨"b", 2, "d2"⟩], 0, []⟩ := by
  have h := updateDeleteSale_by_identity
    ⟨[], [], [⟨"a", 1, "d1"⟩, ⟨"b", 2, "d2"⟩], 0, []⟩
    ⟨"b", 9, "d3"⟩ ⟨"c", 0, ""⟩ "z" 1 (by decide) (by decide) (by decide)
    (by decide) (by decide)
  exact ⟨h.1, h.2.1, h.2.2.1, h.2.2.2⟩

/-! ## C2 — migration idempotence -/

/-- A document in the migrator's fixed-point form: all four collection
fields are arrays of well-formed objects, and every inventory item and
sale carries a truthy `id`. -/
def canonicalDoc (d : RawDoc) : Prop :=
  (∃ xs, d.inventory = .jarr xs ∧
    ∀ v ∈ xs, isValidObject v = true ∧ hasTruthyId v = true) ∧
  (∃ xs, d.purchases = .jarr xs ∧ ∀ v ∈ xs, isValidObject v = true) ∧
  (∃ xs, d.sales = .jarr xs ∧
    ∀ v ∈ xs, isValidObject v = true ∧ hasTruthyId v = true) ∧
  (∃ xs, d.otherExpenses = .jarr xs ∧ ∀ v ∈ xs, isValidObject v = true)

theorem sanitizeField_of_valid (xs : List JVal)
    (h : ∀ v ∈ xs, isValidObject v = true) :
    sanitizeField (.jarr xs) = (xs, false) := by
  simp [sanitizeField, List.filter_eq_self.mpr h]

theorem sanitizeField_out_valid (v : JVal) (xs : List JVal) (b : Bool)
    (h : sanitizeField v = (xs, b)) : ∀ x ∈ xs, isValidObject x = true := by
  cases v with
  | jarr l =>
    rw [sanitizeField] at h
    by_cases hlt : (l.filter isValidObject).length < l.length
    · simp only [hlt, if_true] at h
      obtain ⟨h1, -⟩ := Prod.mk.injEq .. ▸ h
      intro x hx
      exact List.of_mem_filter (h1 ▸ hx)
    · simp only [hlt, if_false] at h
      obtain ⟨h1, -⟩ := Prod.mk.injEq .. ▸ h
      have hsub : (l.filter isValidObject).Sublist l := List.filter_sublist l
      have hlen : (l.filter isValidObject).length = l.length :=
        Nat.le_antisymm (List.length_filter_le _ _) (Nat.le_of_not_lt hlt)
      have : l.filter isValidObject = l := hsub.eq_of_length hlen
      intro x hx
      exact List.of_mem_filter (this.symm ▸ h1 ▸ hx)
  | jnull => simp only [sanitizeField] at h; obtain ⟨h1, -⟩ := Prod.mk.injEq .. ▸ h; simp [← h1]
  | jbool _ => simp only [sanitizeField] at h; obtain ⟨h1, -⟩ := Prod.mk.injEq .. ▸ h; simp [← h1]
  | jnum _ => simp only [sanitizeField] at h; obtain ⟨h1, -⟩ := Prod.mk.injEq .. ▸ h; simp [← h1]
  | jstr _ => simp only [sanitizeField] at h; obtain ⟨h1, -⟩ := Prod.mk.injEq .. ▸ h; simp [← h1]
  | jobj _ => simp only [sanitizeField] at h; obtain ⟨h1, -⟩ := Prod.mk.injEq .. ▸ h; simp [← h1]

theorem sanitizeField_no_change (v : JVal) (xs : List JVal)
    (h : sanitizeField v = (xs, false)) :
    v = .jarr xs ∧ ∀ x ∈ xs, isValidObject x = true := by
  refine ⟨?_, sanitizeField_out_valid v xs false h⟩
  cases v with
  | jarr l =>
    rw [sanitizeField] at h
    by_cases hlt : (l.filter isValidObject).length < l.length
    · simp only [hlt, if_true] at h
      exact absurd (congrArg Prod.snd h) (by simp)
    · simp only [hlt, if_false] at h
      exact congrArg JVal.jarr (congrArg Prod.fst h)
  | jnull => exact absurd (congrArg Prod.snd h) (by simp [sanitizeField])
  | jbool _ => exact absurd (congrArg Prod.snd h) (by simp [sanitizeField])
  | jnum _ => exact absurd (congrArg Prod.snd h) (by simp [sanitizeField])
  | jstr _ => exact absurd (congrArg Prod.snd h) (by simp [sanitizeField])
  | jobj _ => exact absurd (congrArg Prod.snd h) (by simp [sanitizeField])

theorem migrateIds_of_truthy (marker : String) (now : Nat) (xs : List JVal)
    (h : ∀ v ∈ xs, hasTruthyId v = true) :
    migrateIds marker now xs = (xs, false) := by
  have : xs.any (fun v => ! hasTruthyId v) = false := by
    rw [List.any_eq_false]
    intro x hx
    simp [h x hx]
  simp [migrateIds, this]

theorem migrateIds_no_change (marker : String) (now : Nat) (xs ys : List JVal)
    (h : migrateIds marker now xs = (ys, false)) :
    ys = xs ∧ ∀ v ∈ xs, hasTruthyId v = true := by
  rw [migrateIds] at h
  by_cases hany : xs.any (fun v => ! hasTruthyId v) = true
  · simp only [hany, if_true] at h
    exact absurd (congrArg Prod.snd h) (by simp)
  · have hf : xs.any (fun v => ! hasTruthyId v) = false := by
      simpa using hany
    simp only [hf, Bool.false_eq_true, if_false] at h
    refine ⟨(congrArg Prod.fst h).symm, ?_⟩
    intro v hv
    have := List.any_eq_false.mp hf v hv
    simpa using this

theorem find?_setField (fs : List (String × JVal)) (k : String) (x : JVal) :
    (setField fs k x).find? (fun p => p.1 == k) = some (k, x) := by
  induction fs with
  | nil => simp [setField, List.find?]
  | cons p fs ih =>
    rcases p with ⟨k1, v1⟩
    rw [setField]
    by_cases hk : k1 = k
    · simp [hk, List.find?]
    · simp only [hk, if_false]
      rw [List.find?]
      have : (k1 == k) = false := beq_eq_false_iff_ne.mpr hk
      simp only [this]
      exact ih

theorem getField_withEnsuredId (v : JVal) (s : String) :
    getField (withEnsuredId v s) "id" = some (ensuredIdVal v s) := by
  rw [withEnsuredId, getField, find?_setField]
  rfl

theorem genId_ne_empty (marker : String) (now idx : Nat) :
    genId marker now idx ≠ "" := by
  intro h
  have hlen := congrArg String.length h
  rw [genId] at hlen
  simp only [String.length_append] at hlen
  have h9 : "migrated-".length = 9 := by decide
  rw [h9] at hlen
  simp at hlen

theorem truthy_ensuredIdVal (v : JVal) (s : String) (hs : s ≠ "") :
    truthy (ensuredIdVal v s) = true := by
  rw [ensuredIdVal]
  cases hg : getField v "id" with
  | none => simpa [truthy] using hs
  | some x =>
    by_cases ht : truthy x = true
    · simp [ht]
    · have : truthy x = false := by simpa using ht
      simp only [this, Bool.false_eq_true, if_false]
      simpa [truthy] using hs

theorem hasTruthyId_withEnsuredId (v : JVal) (s : String) (hs : s ≠ "") :
    hasTruthyId (withEnsuredId v s) = true := by
  rw [hasTruthyId, getField_withEnsuredId]
  exact truthy_ensuredIdVal v s hs

theorem migrateIds_out_good (marker : String) (now : Nat) (xs : List JVal)
    (h : ∀ v ∈ xs, isValidObject v = true) :
    ∀ v ∈ (migrateIds marker now xs).1,
      isValidObject v = true ∧ hasTruthyId v = true := by
  rw [migrateIds]
  by_cases hany : xs.any (fun v => ! hasTruthyId v) = true
  · simp only [hany, if_true]
    intro v hv
    rcases List.mem_map.mp hv with ⟨p, -, hp⟩
    refine ⟨hp ▸ rfl, ?_⟩
    exact hp ▸ hasTruthyId_withEnsuredId p.2 _ (genId_ne_empty marker now p.1)
  · have hf : xs.any (fun v => ! hasTruthyId v) = false := by simpa using hany
    simp only [hf, Bool.false_eq_true, if_false]
    intro v hv
    refine ⟨h v hv, ?_⟩
    have := List.any_eq_false.mp hf v hv
    simpa using this

theorem migrate_output_canonical (d : RawDoc) (now : Nat) :
    canonicalDoc (migrate d now).1 := by
  rcases hinv : sanitizeField d.inventory with ⟨inv1, b1⟩
  rcases hpur : sanitizeField d.purchases with ⟨pur1, b2⟩
  rcases hsal : sanitizeField d.sales with ⟨sal1, b3⟩
  rcases hoth : sanitizeField d.otherExpenses with ⟨oth1, b4⟩
  rcases hinv2 : migrateIds "inv" now inv1 with ⟨inv2, b5⟩
  rcases hsal2 : migrateIds "sale" now sal1 with ⟨sal2, b6⟩
  have hmig : migrate d now =
      (if b1 || b2 || b3 || b4 || b5 || b6 then
        { inventory := .jarr inv2, purchases := .jarr pur1, sales := .jarr sal2,
          rent := d.rent, otherExpenses := .jarr oth1 }
       else d, b1 || b2 || b3 || b4 || b5 || b6) := by
    rw [migrate]
    simp only [hinv, hpur, hsal, hoth, hinv2, hsal2]
  have hinvValid : ∀ v ∈ inv1, isValidObject v = true :=
    sanitizeField_out_valid _ _ _ hinv
  have hsalValid : ∀ v ∈ sal1, isValidObject v = true :=
    sanitizeField_out_valid _ _ _ hsal
  have hinv2Good : ∀ v ∈ inv2, isValidObject v = true ∧ hasTruthyId v = true := by
    have := migrateIds_out_good "inv" now inv1 hinvValid
    rwa [hinv2] at this
  have hsal2Good : ∀ v ∈ sal2, isValidObject v = true ∧ hasTruthyId v = true := by
    have := migrateIds_out_good "sale" now sal1 hsalValid
    rwa [hsal2] at this
  by_cases hc : (b1 || b2 || b3 || b4 || b5 || b6) = true
  · rw [hmig]
    simp only [hc, if_true]
    exact ⟨⟨inv2, rfl, hinv2Good⟩,
           ⟨pur1, rfl, sanitizeField_out_valid _ _ _ hpur⟩,
           ⟨sal2, rfl, hsal2Good⟩,
           ⟨oth1, rfl, sanitizeField_out_valid _ _ _ hoth⟩⟩
  · have hfalse : (b1 || b2 || b3 || b4 || b5 || b6) = false := by simpa using hc
    have hb : b1 = false ∧ b2 = false ∧ b3 = false ∧ b4 = false ∧
        b5 = false ∧ b6 = false := by
      have := hfalse
      simp only [Bool.or_eq_false_iff] at this
      tauto
    rw [hmig]
    simp only [hfalse, Bool.false_eq_true, if_false]
    obtain ⟨e1, e2, e3, e4, e5, e6⟩ := hb
    subst e1; subst e2; subst e3; subst e4; subst e5; subst e6
    obtain ⟨hinvEq, -⟩ := sanitizeField_no_change _ _ hinv
    obtain ⟨hpurEq, hpurV⟩ := sanitizeField_no_change _ _ hpur
    obtain ⟨hsalEq, -⟩ := sanitizeField_no_change _ _ hsal
    obtain ⟨hothEq, hothV⟩ := sanitizeField_no_change _ _ hoth
    obtain ⟨hinv2Eq, -⟩ := migrateIds_no_change _ _ _ _ hinv2
    obtain ⟨hsal2Eq, -⟩ := migrateIds_no_change _ _ _ _ hsal2
    refine ⟨⟨inv1, hinvEq, ?_⟩, ⟨pur1, hpurEq, hpurV⟩,
            ⟨sal1, hsalEq, ?_⟩, ⟨oth1, hothEq, hothV⟩⟩
    · intro v hv
      exact hinv2Good v (hinv2Eq ▸ hv)
    · intro v hv
      exact hsal2Good v (hsal2Eq ▸ hv)

theorem migrate_canonical_fixed (d : RawDoc) (hd : canonicalDoc d) (now : Nat) :
    migrate d now = (d, false) := by
  obtain ⟨⟨invL, hinvEq, hinvG⟩, ⟨purL, hpurEq, hpurV⟩,
          ⟨salL, hsalEq, hsalG⟩, ⟨othL, hothEq, hothV⟩⟩ := hd
  have hinv : sanitizeField d.inventory = (invL, false) := by
    rw [hinvEq]
    exact sanitizeField_of_valid _ (fun v hv => (hinvG v hv).1)
  have hpur : sanitizeField d.purchases = (purL, false) := by
    rw [hpurEq]
    exact sanitizeField_of_valid _ hpurV
  have hsal : sanitizeField d.sales = (salL, false) := by
    rw [hsalEq]
    exact sanitizeField_of_valid _ (fun v hv => (hsalG v hv).1)
  have hoth : sanitizeField d.otherExpenses = (othL, false) := by
    rw [hothEq]
    exact sanitizeField_of_valid _ hothV
  have hinv2 : migrateIds "inv" now invL = (invL, false) :=
    migrateIds_of_truthy _ _ _ (fun v hv => (hinvG v hv).2)
  have hsal2 : migrateIds "sale" now salL = (salL, false) :=
    migrateIds_of_truthy _ _ _ (fun v hv => (hsalG v hv).2)
  rw [migrate]
  simp only [hinv, hpur, hsal, hoth, hinv2, hsal2]
  simp

/-- C2: migration is idempotent — re-running the migrator on its own
output, at any later time, returns that output unchanged with
`changed = false`. -/
theorem migrate_idempotent (d : RawDoc) (now now2 : Nat) :
    migrate (migrate d now).1 now2 = ((migrate d now).1, false) :=
  migrate_canonical_fixed _ (migrate_output_canonical d now) now2

/-! ## C9 — export/import round trip -/

theorem invItem_rt (x : InventoryItem) : invItemOfJson (invItemToJson x) = some x := rfl

theorem purchase_rt (p : Purchase) : purchaseOfJson (purchaseToJson p) = some p := rfl

theorem sale_rt (s : Sale) : saleOfJson (saleToJson s) = some s := rfl

theorem expense_rt (e : Expense) : expenseOfJson (expenseToJson e) = some e := rfl

/-- C9: importing the exported document of any canonical `AppData` passes
the shape validation, replaces the state with exactly the exported
document, and reading that document back yields the original `AppData`
unchanged — the serialization is lossless.  (`JSON.stringify`/`JSON.parse`
are the platform codec and are modelled as the identity on JSON values.) -/
theorem export_import_roundtrip (D : AppData) (prevState : JVal) :
    importDocument (some (exportDocument D)) true prevState = (exportDocument D, none) ∧
    appDataOfJson (exportDocument D) = some D := by
  constructor
  · rfl
  · show (do
      let inv2 ← decodeList invItemOfJson (D.inventory.map invItemToJson)
      let pur2 ← decodeList purchaseOfJson (D.purchases.map purchaseToJson)
      let sal2 ← decodeList saleOfJson (D.sales.map saleToJson)
      let oth2 ← decodeList expenseOfJson (D.otherExpenses.map expenseToJson)
      pure { inventory := inv2, purchases := pur2, sales := sal2, rent := D.rent,
             otherExpenses := oth2 } : Option AppData) = some D
    rw [decodeList_map _ _ invItem_rt, decodeList_map _ _ purchase_rt,
        decodeList_map _ _ sale_rt, decodeList_map _ _ expense_rt]
    rfl

/-! ## C4 — id uniqueness after migration

Generated ids embed `Date.now()` and the entry's index in decimal; the
distinctness of two generated ids reduces to the injectivity of the
decimal representation `Nat.repr`, proved here via the digit-list value
function. -/

/-- The most-significant-first decimal digit characters of a natural
number: the functional content of `Nat.toDigitsCore` at base 10. -/
def digitsRev (n : Nat) : List Char :=
  if n < 10 then [Nat.digitChar (n % 10)]
  else digitsRev (n / 10) ++ [Nat.digitChar (n % 10)]
termination_by n
decreasing_by
  exact Nat.div_lt_self (by omega) (by omega)

theorem toDigitsCore_eq_digitsRev (f : Nat) :
    ∀ (n : Nat) (l : List Char), n < f →
      Nat.toDigitsCore 10 f n l = digitsRev n ++ l := by
  induction f with
  | zero => intro n l h; omega
  | succ f ih =>
    intro n l h
    by_cases h0 : n / 10 = 0
    · have hn : n < 10 := by omega
      rw [show Nat.toDigitsCore 10 (f + 1) n l =
          (if n / 10 = 0 then Nat.digitChar (n % 10) :: l
           else Nat.toDigitsCore 10 f (n / 10) (Nat.digitChar (n % 10) :: l))
          from rfl]
      rw [if_pos h0, digitsRev, if_pos hn, List.singleton_append]
    · have hn : ¬ n < 10 := by omega
      have hdiv : n / 10 < n := Nat.div_lt_self (by omega) (by omega)
      rw [show Nat.toDigitsCore 10 (f + 1) n l =
          (if n / 10 = 0 then Nat.digitChar (n % 10) :: l
           else Nat.toDigitsCore 10 f (n / 10) (Nat.digitChar (n % 10) :: l))
          from rfl]
      rw [if_neg h0, ih (n / 10) _ (by omega)]
      conv_rhs => rw [digitsRev]
      rw [if_neg hn, List.append_assoc, List.singleton_append]

/-- The numeric value a decimal digit character stands for. -/
def digitVal (c : Char) : Nat := c.toNat - '0'.toNat

/-- The number denoted by a most-significant-first decimal digit list. -/
def valOf (l : List Char) : Nat :=
  l.foldl (fun a c => 10 * a + digitVal c) 0

theorem digitVal_digitChar (d : Nat) (h : d < 10) :
    digitVal (Nat.digitChar d) = d := by
  interval_cases d <;> rfl

theorem valOf_append_digit (l : List Char) (c : Char) :
    valOf (l ++ [c]) = 10 * valOf l + digitVal c := by
  rw [valOf, valOf, List.foldl_append]
  rfl

theorem valOf_digitsRev (n : Nat) : valOf (digitsRev n) = n := by
  induction n using Nat.strong_induction_on with
  | _ n ih =>
    by_cases h : n < 10
    · rw [digitsRev, if_pos h]
      have : valOf [Nat.digitChar (n % 10)] = digitVal (Nat.digitChar (n % 10)) := by
        rw [valOf, List.foldl]
        simp [List.foldl]
      rw [this, digitVal_digitChar (n % 10) (Nat.mod_lt _ (by omega))]
      omega
    · have hdiv : n / 10 < n := Nat.div_lt_self (by omega) (by omega)
      rw [digitsRev, if_neg h, valOf_append_digit, ih _ hdiv,
        digitVal_digitChar (n % 10) (Nat.mod_lt _ (by omega))]
      omega

theorem digitsRev_inj (m n : Nat) (h : digitsRev m = digitsRev n) : m = n := by
  have := congrArg valOf h
  rwa [valOf_digitsRev, valOf_digitsRev] at this

theorem natRepr_data (n : Nat) : (Nat.repr n).data = digitsRev n := by
  show (Nat.toDigits 10 n).asString.data = digitsRev n
  rw [Nat.toDigits, toDigitsCore_eq_digitsRev (n + 1) n [] (Nat.lt_succ_self n),
    List.append_nil]
  rfl

theorem natRepr_inj (m n : Nat) (h : Nat.repr m = Nat.repr n) : m = n := by
  apply digitsRev_inj
  have := congrArg String.data h
  rwa [natRepr_data, natRepr_data] at this

theorem string_data_append (s t : String) : (s ++ t).data = s.data ++ t.data := rfl

theorem genId_inj (marker : String) (now i j : Nat)
    (h : genId marker now i = genId marker now j) : i = j := by
  have hd := congrArg String.data h
  rw [genId, genId] at hd
  simp only [string_data_append, List.append_assoc] at hd
  have h1 := List.append_cancel_left hd
  have h2 := List.append_cancel_left h1
  have h3 := List.append_cancel_left h2
  have h4 := List.append_cancel_left h3
  have h5 := List.append_cancel_left h4
  apply digitsRev_inj
  rwa [natRepr_data, natRepr_data] at h5

/-- The pre-existing ids of a (sanitized) entry list are compatible with
this migration pass: truthy ids are pairwise distinct, and none equals a
string this pass could generate for any index of the list. -/
def preIdsOk (marker : String) (now : Nat) (xs : List JVal) : Prop :=
  (∀ (i j : Nat) (hi : i < xs.length) (hj : j < xs.length), i ≠ j →
    hasTruthyId (xs.get ⟨i, hi⟩) = true → hasTruthyId (xs.get ⟨j, hj⟩) = true →
    getField (xs.get ⟨i, hi⟩) "id" ≠ getField (xs.get ⟨j, hj⟩) "id") ∧
  (∀ (i k : Nat) (hi : i < xs.length), k < xs.length →
    hasTruthyId (xs.get ⟨i, hi⟩) = true →
    getField (xs.get ⟨i, hi⟩) "id" ≠ some (.jstr (genId marker now k)))

theorem ensuredIdVal_cases (v : JVal) (s : String) :
    (hasTruthyId v = true ∧ getField v "id" = some (ensuredIdVal v s)) ∨
    (hasTruthyId v = false ∧ ensuredIdVal v s = .jstr s) := by
  cases hg : getField v "id" with
  | none =>
    right
    constructor
    · rw [hasTruthyId, hg]
    · rw [ensuredIdVal, hg]
  | some x =>
    by_cases ht : truthy x = true
    · left
      constructor
      · rw [hasTruthyId, hg]; exact ht
      · rw [ensuredIdVal, hg]
        simp only [ht, if_true]
    · right
      have htf : truthy x = false := by simpa using ht
      constructor
      · rw [hasTruthyId, hg]; exact htf
      · rw [ensuredIdVal, hg]
        simp [htf]

theorem idsOf_migrated_get (marker : String) (now : Nat) (xs : List JVal)
    (c : Nat)
    (hc : c < (idsOf ((xs.enum).map
      (fun p => withEnsuredId p.2 (genId marker now p.1)))).length)
    (hcx : c < xs.length) :
    (idsOf ((xs.enum).map (fun p => withEnsuredId p.2 (genId marker now p.1)))).get
        ⟨c, hc⟩ =
      some (ensuredIdVal (xs.get ⟨c, hcx⟩) (genId marker now c)) := by
  rw [List.get_eq_getElem]
  simp only [idsOf, List.getElem_map, List.getElem_enum]
  rw [getField_withEnsuredId]
  rfl

theorem migrateIds_ids_nodup (marker : String) (now : Nat) (xs : List JVal)
    (h : preIdsOk marker now xs) :
    (idsOf (migrateIds marker now xs).1).Nodup := by
  rcases h with ⟨h1, h2⟩
  rw [migrateIds]
  by_cases hany : xs.any (fun v => ! hasTruthyId v) = true
  · simp only [hany, if_true]
    rw [List.nodup_iff_injective_get]
    intro a b hab
    have hla : a.1 < xs.length := by
      have := a.2
      simpa [idsOf] using this
    have hlb : b.1 < xs.length := by
      have := b.2
      simpa [idsOf] using this
    rw [idsOf_migrated_get marker now xs a.1 a.2 hla,
        idsOf_migrated_get marker now xs b.1 b.2 hlb] at hab
    have hval : ensuredIdVal (xs.get ⟨a.1, hla⟩) (genId marker now a.1) =
        ensuredIdVal (xs.get ⟨b.1, hlb⟩) (genId marker now b.1) :=
      Option.some.inj hab
    apply Fin.ext
    by_contra hne
    rcases ensuredIdVal_cases (xs.get ⟨a.1, hla⟩) (genId marker now a.1) with
      ⟨hta, hga⟩ | ⟨hta, hea⟩ <;>
      rcases ensuredIdVal_cases (xs.get ⟨b.1, hlb⟩) (genId marker now b.1) with
        ⟨htb, hgb⟩ | ⟨htb, heb⟩
    · exact h1 a.1 b.1 hla hlb hne hta htb (by rw [hga, hgb, hval])
    · exact h2 a.1 b.1 hla hlb hta (by rw [hga, hval, heb])
    · exact h2 b.1 a.1 hlb hla htb (by rw [hgb, ← hval, hea])
    · have := hea.symm.trans (hval.trans heb)
      have hg : genId marker now a.1 = genId marker now b.1 := by
        injection this
      exact hne (genId_inj marker now a.1 b.1 hg)
  · have hf : xs.any (fun v => ! hasTruthyId v) = false := by simpa using hany
    simp only [hf, Bool.false_eq_true, if_false]
    have hall : ∀ v ∈ xs, hasTruthyId v = true := by
      intro v hv
      have := List.any_eq_false.mp hf v hv
      simpa using this
    rw [List.nodup_iff_injective_get]
    intro a b hab
    have hla : a.1 < xs.length := by
      have := a.2
      simpa [idsOf] using this
    have hlb : b.1 < xs.length := by
      have := b.2
      simpa [idsOf] using this
    have hga : (idsOf xs).get a = getField (xs.get ⟨a.1, hla⟩) "id" := by
      rw [List.get_eq_getElem]
      simp [idsOf]
    have hgb : (idsOf xs).get b = getField (xs.get ⟨b.1, hlb⟩) "id" := by
      rw [List.get_eq_getElem]
      simp [idsOf]
    apply Fin.ext
    by_contra hne
    exact h1 a.1 b.1 hla hlb hne
      (hall _ (xs.get_mem _ _)) (hall _ (xs.get_mem _ _))
      (by rw [← hga, ← hgb, hab])

theorem entries_migrate (d : RawDoc) (now : Nat) :
    entriesOf (migrate d now).1.inventory =
      (migrateIds "inv" now (sanitizeField d.inventory).1).1 ∧
    entriesOf (migrate d now).1.sales =
      (migrateIds "sale" now (sanitizeField d.sales).1).1 := by
  rcases hinv : sanitizeField d.inventory with ⟨inv1, b1⟩
  rcases hpur : sanitizeField d.purchases with ⟨pur1, b2⟩
  rcases hsal : sanitizeField d.sales with ⟨sal1, b3⟩
  rcases hoth : sanitizeField d.otherExpenses with ⟨oth1, b4⟩
  rcases hinv2 : migrateIds "inv" now inv1 with ⟨inv2, b5⟩
  rcases hsal2 : migrateIds "sale" now sal1 with ⟨sal2, b6⟩
  have hmig : migrate d now =
      (if b1 || b2 || b3 || b4 || b5 || b6 then
        { inventory := .jarr inv2, purchases := .jarr pur1, sales := .jarr sal2,
          rent := d.rent, otherExpenses := .jarr oth1 }
       else d, b1 || b2 || b3 || b4 || b5 || b6) := by
    rw [migrate]
    simp only [hinv, hpur, hsal, hoth, hinv2, hsal2]
  by_cases hc : (b1 || b2 || b3 || b4 || b5 || b6) = true
  · rw [hmig]
    simp only [hc, if_true]
    exact ⟨rfl, rfl⟩
  · have hfalse : (b1 || b2 || b3 || b4 || b5 || b6) = false := by simpa using hc
    have hb : b1 = false ∧ b2 = false ∧ b3 = false ∧ b4 = false ∧
        b5 = false ∧ b6 = false := by
      have := hfalse
      simp only [Bool.or_eq_false_iff] at this
      tauto
    obtain ⟨e1, -, e3, -, e5, e6⟩ := hb
    subst e1; subst e3; subst e5; subst e6
    rw [hmig]
    simp only [hfalse, Bool.false_eq_true, if_false]
    obtain ⟨hinvEq, -⟩ := sanitizeField_no_change _ _ hinv
    obtain ⟨hsalEq, -⟩ := sanitizeField_no_change _ _ hsal
    obtain ⟨hinv2Eq, -⟩ := migrateIds_no_change _ _ _ _ hinv2
    obtain ⟨hsal2Eq, -⟩ := migrateIds_no_change _ _ _ _ hsal2
    constructor
    · rw [hinvEq, hinv2Eq]
      rfl
    · rw [hsalEq, hsal2Eq]
      rfl

/-- A document whose two inventory items already carry the same truthy id
`"a"`: migration keeps both untouched. -/
def dupIdDoc : RawDoc :=
  { inventory := .jarr [.jobj [("id", .jstr "a")], .jobj [("id", .jstr "a")]]
    purchases := .jarr []
    sales := .jarr []
    rent := .jnum 0
    otherExpenses := .jarr [] }

/-- C4 fails on the code as stated: a raw document carrying two inventory
items with the same pre-existing id keeps both through migration, so
post-migration inventory ids are not unique for every raw document. -/
theorem migrate_id_uniqueness_counterexample :
    ¬ (idsOf (entriesOf (migrate dupIdDoc 0).1.inventory)).Nodup := by
  intro h
  have e : idsOf (entriesOf (migrate dupIdDoc 0).1.inventory) =
      [some (.jstr "a"), some (.jstr "a")] := rfl
  rw [e] at h
  simp [List.nodup_cons] at h

/-- C4 (amended): ids generated during one migration pass carry the
`migrated-` marker and the entry's position and never collide with each
other; and whenever the document's pre-existing truthy ids are pairwise
distinct and distinct from every id this pass can generate, migration
leaves every inventory id and every sale id unique within its
collection. -/
theorem migrate_id_uniqueness_amended (d : RawDoc) (now : Nat)
    (marker : String) (i j : Nat) (hij : i ≠ j)
    (hinv : preIdsOk "inv" now (sanitizeField d.inventory).1)
    (hsal : preIdsOk "sale" now (sanitizeField d.sales).1) :
    (idsOf (entriesOf (migrate d now).1.inventory)).Nodup ∧
    (idsOf (entriesOf (migrate d now).1.sales)).Nodup ∧
    genId marker now i ≠ genId marker now j := by
  obtain ⟨hi, hs⟩ := entries_migrate d now
  refine ⟨?_, ?_, ?_⟩
  · rw [hi]
    exact migrateIds_ids_nodup _ _ _ hinv
  · rw [hs]
    exact migrateIds_ids_nodup _ _ _ hsal
  · intro h
    exact hij (genId_inj marker now i j h)

/-- A document with one truthy-id inventory item and one id-less item,
used to witness the amended id-uniqueness statement. -/
def mixedIdDoc : RawDoc :=
  { inventory := .jarr [.jobj [("id", .jstr "a")], .jobj []]
    purchases := .jarr []
    sales := .jarr []
    rent := .jnum 0
    otherExpenses := .jarr [] }

/-- Witness for C4 (amended): a pass over a document holding one item with
pre-existing id `"a"` and one id-less item. -/
theorem migrate_id_uniqueness_amended_witness :
    (idsOf (entriesOf (migrate mixedIdDoc 0).1.inventory)).Nodup ∧
    (idsOf (entriesOf (migrate mixedIdDoc 0).1.sales)).Nodup ∧
    genId "inv" 0 0 ≠ genId "inv" 0 1 := by
  have hinv : preIdsOk "inv" 0 (sanitizeField mixedIdDoc.inventory).1 := by
    constructor
    · intro i j hi hj hij ht1 ht2
      have hi2 : i < 2 := hi
      have hj2 : j < 2 := hj
      interval_cases i <;> interval_cases j
      · exact absurd rfl hij
      · exact absurd (show hasTruthyId (JVal.jobj []) = true from ht2) (by decide)
      · exact absurd (show hasTruthyId (JVal.jobj []) = true from ht1) (by decide)
      · exact absurd rfl hij
    · intro i k hi hk ht
      have hi2 : i < 2 := hi
      have hk2 : k < 2 := hk
      interval_cases i
      · interval_cases k
        · intro h
          have h2 : JVal.jstr "a" = JVal.jstr (genId "inv" 0 0) :=
            Option.some.inj h
          have h3 : "a" = genId "inv" 0 0 := by injection h2
          exact absurd h3 (by decide)
        · intro h
          have h2 : JVal.jstr "a" = JVal.jstr (genId "inv" 0 1) :=
            Option.some.inj h
          have h3 : "a" = genId "inv" 0 1 := by injection h2
          exact absurd h3 (by decide)
      · exact absurd (show hasTruthyId (JVal.jobj []) = true from ht) (by decide)
  have hsal : preIdsOk "sale" 0 (sanitizeField mixedIdDoc.sales).1 := by
    constructor
    · intro i j hi hj hij ht1 ht2
      exact absurd (show i < 0 from hi) (Nat.not_lt_zero i)
    · intro i k hi hk ht
      exact absurd (show i < 0 from hi) (Nat.not_lt_zero i)
  exact migrate_id_uniqueness_amended mixedIdDoc 0 "inv" 0 1 (by decide) hinv hsal
